import Mathlib

/-!
Shallow embedding of the message resolution engine of sms-backup.py.

Python strings are modelled as lists of characters (`PyStr`).  The sqlite
tables are modelled as in-memory lists: `group_member` as a list of
`GMRow` (address, group_id) and `message` as a list of `Row`.  The SQL
query built by `build_msg_query` is modelled by the inductive `MsgQuery`
together with its executable semantics `exec_msg_query` (filter by
group_id membership, order by rowid ascending).  Python dictionaries are
modelled as association lists where insertion conses at the front and
lookup takes the first hit, which realises the overwrite semantics of
`result[gid] = name`.  Fallible Python code (functions that can raise,
such as `max([])` inside `msgs_human`, the unassigned-variable branch of
`convert_address`, or a failed regex match in `alias_map`) is modelled
with `Option`, `none` standing for the raised exception.  Date formatting
(`convert_date`, which delegates to `datetime.strftime`) is out of scope
and passed through as a function parameter.
-/

abbrev PyStr := List Char

/-- Embedding of `strip` (line 120): remove every non-digit character. -/
def strip (phone : PyStr) : PyStr :=
  phone.filter Char.isDigit

/-- Python slice `l[-n:]`: the last `n` elements (the whole list when it is
shorter than `n`). -/
def lastN (n : Nat) (l : PyStr) : PyStr :=
  l.drop (l.length - n)

/-- Embedding of `format_phone` (line 124).  `ph[-10:-7]` is
`(lastN 10 ph).take 3`, `ph[-7:-4]` is `(lastN 7 ph).take 3` and
`ph[-4:]` is `lastN 4 ph`.  When no branch fires the Python code returns
the variable `phone` still bound to the original argument. -/
def format_phone (phone : PyStr) : PyStr :=
  let ph := strip phone
  if ph.length < 10 then ph
  else if ph.length = 10 then
    ("(".toList) ++ (lastN 10 ph).take 3 ++ (") ".toList) ++ (lastN 7 ph).take 3
      ++ ("-".toList) ++ lastN 4 ph
  else if ph.length = 11 ∧ ph.head? = some '1' then
    ("(".toList) ++ (lastN 10 ph).take 3 ++ (") ".toList) ++ (lastN 7 ph).take 3
      ++ ("-".toList) ++ lastN 4 ph
  else phone

/-- Embedding of `valid_phone` (line 144): at least 5 digits after stripping. -/
def valid_phone (phone : PyStr) : Bool :=
  5 ≤ (strip phone).length

/-- A row of the `group_member` table: an address string and its
conversation-group identifier. -/
structure GMRow where
  address : PyStr
  group_id : Int
deriving DecidableEq

/-- Embedding of `query_group_ids` (line 231).  The SQL query
`select group_id from group_member where STRIP(address) like '%'+ph[-10:]`
keeps the rows whose stripped address ends with the last 10 stripped
digits of the phone.  `fetchall` returning an empty list makes the
function return `None`, modelled as `none`. -/
def query_group_ids (db : List GMRow) (phone : PyStr) : Option (List Int) :=
  let ph := strip phone
  let result := db.filter (fun r => (lastN 10 ph).isSuffixOf (strip r.address))
  if result.isEmpty then none
  else some (result.map (fun r => r.group_id))

/-- Embedding of the regex `^([^=]+)=([^=]+)$` used by `alias_map`
(line 273): the match succeeds exactly when the string contains a single
`=` with non-empty text on both sides; group 1 is the text before the
`=`, group 2 the text after it. -/
def parse_alias (a : PyStr) : Option (PyStr × PyStr) :=
  let left := a.takeWhile (fun c => c != '=')
  match a.dropWhile (fun c => c != '=') with
  | '=' :: right =>
    if left.isEmpty || right.isEmpty || right.contains '=' then none
    else some (left, right)
  | _ => none

/-- A Python dict from group_id to display name, as an association list
whose head is the most recent insertion. -/
abbrev AliasDict := List (Int × PyStr)

/-- Embedding of the dict assignment `result[gid] = name`: cons at the
front, so that `List.lookup` (first hit) sees the latest binding. -/
def dict_insert (d : AliasDict) (k : Int) (v : PyStr) : AliasDict :=
  (k, v) :: d

/-- Key list of an `AliasDict`; `k ∈ dict_keys d` models `k in d`. -/
def dict_keys (d : AliasDict) : List Int :=
  d.map Prod.fst

/-- One iteration of the loop in `alias_map` (line 272).  The alias
string is split by the regex; `m.group` on a failed match raises,
modelled as `none` for the whole computation.  A number whose
`query_group_ids` is `None` is skipped (`if group_ids:` is false);
otherwise every resolved group id is assigned the name. -/
def alias_step (db : List GMRow) (acc : Option AliasDict) (a : PyStr) : Option AliasDict :=
  match acc with
  | none => none
  | some result =>
    match parse_alias a with
    | none => none
    | some (number, name) =>
      match query_group_ids db number with
      | some group_ids =>
        some (group_ids.foldl (fun res gid => dict_insert res gid name) result)
      | none => some result

/-- Embedding of `alias_map` (line 261): fold the loop body over the
alias list, starting from the empty dict. -/
def alias_map (db : List GMRow) (aliases : List PyStr) : Option AliasDict :=
  aliases.foldl (alias_step db) (some [])

/-- The query planned by `build_msg_query`: either the filtered select
with a `where group_id in (...)` clause, or the unrestricted select. -/
inductive MsgQuery where
  | filtered (group_ids : List Int)
  | unfiltered
deriving DecidableEq

/-- Embedding of `build_msg_query` (line 292): resolve each requested
number, accumulate all group ids (`extend`), and plan the filtered query
when the accumulated list is non-empty, the unrestricted one otherwise. -/
def build_msg_query (db : List GMRow) (numbers : Option (List PyStr)) : MsgQuery :=
  let group_ids :=
    match numbers with
    | none => []
    | some ns =>
      ns.foldl
        (fun acc n =>
          match query_group_ids db n with
          | some gids => acc ++ gids
          | none => acc)
        []
  if group_ids.isEmpty then MsgQuery.unfiltered else MsgQuery.filtered group_ids

/-- A row of the `message` table. -/
structure Row where
  rowid : Int
  date : Int
  address : PyStr
  text : PyStr
  flags : Int
  group_id : Int
deriving DecidableEq

/-- Ordering of message rows used by the `order by rowid` clause. -/
def row_le (a b : Row) : Prop :=
  a.rowid ≤ b.rowid

instance : DecidableRel row_le :=
  fun a b => inferInstanceAs (Decidable (a.rowid ≤ b.rowid))

instance : IsTotal Row row_le :=
  ⟨fun a b => Int.le_total a.rowid b.rowid⟩

instance : IsTrans Row row_le :=
  ⟨fun _ _ _ h1 h2 => le_trans h1 h2⟩

/-- Semantics of the planned query over the message table: the filtered
select keeps the rows whose group_id is in the list, the unrestricted
select keeps all rows; both order by rowid ascending. -/
def exec_msg_query (msgs : List Row) : MsgQuery → List Row
  | MsgQuery.filtered gids =>
    List.insertionSort row_le (msgs.filter (fun r => gids.contains r.group_id))
  | MsgQuery.unfiltered => List.insertionSort row_le msgs

/-- Embedding of `skip_row` (line 367): skip when the flags are neither 2
nor 3, when the address is falsy, or when the text is falsy. -/
def skip_row (row : Row) : Bool :=
  if row.flags != 2 && row.flags != 3 then true
  else if row.address.isEmpty then true
  else if row.text.isEmpty then true
  else false

/-- Embedding of `convert_address` (line 334).  The counterpart is the
alias for the group id when the dict is non-empty and has the key, the
formatted phone number otherwise.  When the flags are neither 2 nor 3
both `from_addr` and `to_addr` are unassigned and the `return` raises,
modelled as `none`. -/
def convert_address (row : Row) (me : PyStr) (am : AliasDict) : Option (PyStr × PyStr) :=
  let address := format_phone row.address
  let other :=
    match am with
    | [] => address
    | _ :: _ =>
      match am.lookup row.group_id with
      | some a => a
      | none => address
  if row.flags = 2 then some (other, me)
  else if row.flags = 3 then some (me, other)
  else none

/-- An output-ready message, as built by the loop in `main` (line 486). -/
structure Msg where
  date : PyStr
  from_addr : PyStr
  to_addr : PyStr
  text : PyStr
deriving DecidableEq

/-- One iteration of the row loop in `main` (line 487): skip the row or
produce the output record; `fd` stands for `convert_date` applied to the
date format. -/
def classify_row (fd : Int → PyStr) (me : PyStr) (am : AliasDict) (row : Row) : Option Msg :=
  if skip_row row then none
  else
    match convert_address row me am with
    | some (from_addr, to_addr) =>
      some { date := fd row.date, from_addr := from_addr, to_addr := to_addr, text := row.text }
    | none => none

/-- The whole row loop of `main`: the accumulated `messages` list. -/
def run_pipeline (fd : Int → PyStr) (me : PyStr) (am : AliasDict) (rows : List Row) : List Msg :=
  rows.filterMap (classify_row fd me am)

/-- Python `max` over a list of lengths: raises on an empty list,
modelled as `none`. -/
def pymax (l : List Nat) : Option Nat :=
  match l with
  | [] => none
  | x :: xs => some (xs.foldl max x)

/-- Python `str.ljust`-style padding as performed by the format spec
with default alignment. -/
def ljust (s : PyStr) (w : Nat) : PyStr :=
  s ++ List.replicate (w - s.length) ' '

/-- Right alignment as performed by the format spec with `>`. -/
def rjust (s : PyStr) (w : Nat) : PyStr :=
  List.replicate (w - s.length) ' ' ++ s

/-- Embedding of `msgs_human` (line 384).  The three `max(...)` calls on
the empty message list raise, modelled as `none`; otherwise the column
widths are the maximum of the widest value and the header word, the
optional header row and the message rows are joined with newlines, and a
trailing empty line terminates the output. -/
def msgs_human (messages : List Msg) (header : Bool) : Option PyStr :=
  match pymax (messages.map (fun x => x.from_addr.length)),
        pymax (messages.map (fun x => x.to_addr.length)),
        pymax (messages.map (fun x => x.date.length)) with
  | some max_from, some max_to, some max_date =>
    let from_width := max max_from ("From".toList.length)
    let to_width := max max_to ("To".toList.length)
    let date_width := max max_date ("Date".toList.length)
    let hrows :=
      if header then
        [ljust ("Date".toList) date_width ++ (" | ".toList)
          ++ ljust ("From".toList) from_width ++ (" | ".toList)
          ++ ljust ("To".toList) to_width ++ (" | ".toList) ++ ("Text".toList)]
      else []
    let mrows := messages.map (fun m =>
      ljust m.date date_width ++ (" | ".toList)
        ++ rjust m.from_addr from_width ++ (" | ".toList)
        ++ rjust m.to_addr to_width ++ (" | ".toList) ++ m.text)
    some (List.intercalate ("\n".toList) (hrows ++ mrows ++ [[]]))
  | _, _, _ => none

/-- Stripping a string that is already all digits changes nothing. -/
theorem strip_all_digits (l : PyStr) (h : ∀ c ∈ l, c.isDigit = true) : strip l = l :=
  List.filter_eq_self.mpr h

/-- Dropping the head of a list does not change a last-n slice that fits
inside the tail. -/
theorem lastN_cons (n : Nat) (c : Char) (t : PyStr) (h : n ≤ t.length) :
    lastN n (c :: t) = lastN n t := by
  unfold lastN
  rw [List.length_cons, Nat.succ_sub h, List.drop_succ_cons]

/-- C6: for a digit-only string of length 11 starting with the digit 1,
`format_phone` gives the same result as on the string with the leading
country code removed: both format the last 10 digits. -/
theorem c6_format_phone_drops_leading_one (d : PyStr)
    (hdig : ∀ c ∈ d, c.isDigit = true) (hlen : d.length = 11)
    (hhd : d.head? = some '1') :
    format_phone d = format_phone d.tail := by
  cases d with
  | nil => simp at hlen
  | cons c t =>
    have hc : c = '1' := by simpa using hhd
    subst hc
    have ht : t.length = 10 := by simpa using hlen
    have hsd : strip ('1' :: t) = '1' :: t := strip_all_digits _ hdig
    have hst : strip t = t :=
      strip_all_digits _ (fun x hx => hdig x (List.mem_cons_of_mem '1' hx))
    have l10 : lastN 10 ('1' :: t) = lastN 10 t := lastN_cons 10 '1' t (by omega)
    have l7 : lastN 7 ('1' :: t) = lastN 7 t := lastN_cons 7 '1' t (by omega)
    have l4 : lastN 4 ('1' :: t) = lastN 4 t := lastN_cons 4 '1' t (by omega)
    simp only [List.tail_cons]
    simp [format_phone, hsd, hst, ht, l10, l7, l4]

/-- Witness for C6 at a concrete 11-digit number with leading 1. -/
theorem c6_witness :
    format_phone ("15555551212".toList) = format_phone (("15555551212".toList).tail) :=
  c6_format_phone_drops_leading_one _ (by decide) (by decide) (by decide)

/-- C5 counterexample: an input with 11 stripped digits, not starting
with 1, containing punctuation: `format_phone` returns the original
input with its punctuation, not the stripped digits. -/
theorem c5_counterexample :
    ((strip ("2345678901-2".toList)).length = 11 ∧
      (strip ("2345678901-2".toList)).head? ≠ some '1') ∧
    format_phone ("2345678901-2".toList) ≠ strip ("2345678901-2".toList) := by
  decide

/-- C5 amended: when the stripped digit count is more than 11, or
exactly 11 without a leading 1, `format_phone` returns the original
input string unchanged (which equals the stripped digits only when the
input was already digit-only). -/
theorem c5_format_phone_fallthrough (phone : PyStr)
    (h : 11 < (strip phone).length ∨
      ((strip phone).length = 11 ∧ (strip phone).head? ≠ some '1')) :
    format_phone phone = phone := by
  simp only [format_phone]
  rcases h with h | ⟨h1, h2⟩
  · rw [if_neg (by omega), if_neg (by omega), if_neg (by rintro ⟨he, -⟩; omega)]
  · rw [if_neg (by omega), if_neg (by omega), if_neg (by rintro ⟨-, hh⟩; exact h2 hh)]

/-- Witness for the amended C5 at a concrete input. -/
theorem c5_witness : format_phone ("2345678901-2".toList) = "2345678901-2".toList :=
  c5_format_phone_fallthrough _ (by decide)

/-- C2: the group ids returned by `query_group_ids` are exactly (as a
set) the group ids of the stored membership addresses whose stripped
form ends with the last 10 (or fewer) stripped digits of the input; the
function returns `none` (a soft miss, not an error) exactly when no
address matches; and any two inputs with the same 10-digit stripped
suffix resolve identically. -/
theorem c2_query_group_ids_spec (db : List GMRow) (phone : PyStr) :
    (∀ g : Int, g ∈ (query_group_ids db phone).getD [] ↔
        ∃ r ∈ db, (lastN 10 (strip phone)).isSuffixOf (strip r.address) = true ∧
          r.group_id = g)
    ∧ (query_group_ids db phone = none ↔
        ∀ r ∈ db, ¬ ((lastN 10 (strip phone)).isSuffixOf (strip r.address) = true))
    ∧ ∀ p2 : PyStr, lastN 10 (strip p2) = lastN 10 (strip phone) →
        query_group_ids db p2 = query_group_ids db phone := by
  refine ⟨?_, ?_, ?_⟩
  · intro g
    simp only [query_group_ids]
    by_cases h :
        (db.filter (fun r => (lastN 10 (strip phone)).isSuffixOf (strip r.address))).isEmpty
    · rw [if_pos h]
      rw [List.isEmpty_iff] at h
      simp only [Option.getD_none, List.not_mem_nil, false_iff]
      rintro ⟨r, hr, hp, -⟩
      have hmem : r ∈ db.filter
          (fun r => (lastN 10 (strip phone)).isSuffixOf (strip r.address)) :=
        List.mem_filter.mpr ⟨hr, hp⟩
      rw [h] at hmem
      exact List.not_mem_nil r hmem
    · rw [if_neg h]
      simp only [Option.getD_some, List.mem_map, List.mem_filter]
      constructor
      · rintro ⟨r, ⟨hr, hp⟩, hg⟩
        exact ⟨r, hr, hp, hg⟩
      · rintro ⟨r, hr, hp, hg⟩
        exact ⟨r, ⟨hr, hp⟩, hg⟩
  · simp only [query_group_ids]
    by_cases h :
        (db.filter (fun r => (lastN 10 (strip phone)).isSuffixOf (strip r.address))).isEmpty
    · rw [if_pos h]
      rw [List.isEmpty_iff, List.filter_eq_nil_iff] at h
      simp only [true_iff]
      intro r hr hp
      exact h r hr (by simpa using hp)
    · rw [if_neg h]
      rw [List.isEmpty_iff] at h
      constructor
      · intro hc
        exact absurd hc (by simp)
      · intro hall
        exfalso
        apply h
        rw [List.filter_eq_nil_iff]
        intro r hr hp
        exact hall r hr (by simpa using hp)
  · intro p2 h
    simp only [query_group_ids, h]

/-- A row that passes the skip check has direction flag 2 or 3. -/
theorem not_skip_flags (row : Row) (h : skip_row row = false) :
    row.flags = 2 ∨ row.flags = 3 := by
  by_contra hn
  push_neg at hn
  obtain ⟨h2, h3⟩ := hn
  simp [skip_row, h2, h3] at h

/-- On a row that passes the skip check, `convert_address` always
assigns both addresses. -/
theorem convert_address_isSome (row : Row) (me : PyStr) (am : AliasDict)
    (h : skip_row row = false) : (convert_address row me am).isSome = true := by
  rcases not_skip_flags row h with h2 | h3
  · simp [convert_address, h2]
  · simp [convert_address, h3]

/-- C3: on an eligible row, flag 2 (incoming) maps from = counterpart
and to = identity, flag 3 (outgoing) maps from = identity and to =
counterpart, where the counterpart is the alias of the group id when
present in the alias map and the formatted phone number otherwise. -/
theorem c3_convert_address_directional (row : Row) (me : PyStr) (am : AliasDict)
    (h : skip_row row = false) :
    (row.flags = 2 → convert_address row me am =
        some ((match am.lookup row.group_id with
               | some a => a
               | none => format_phone row.address), me))
    ∧ (row.flags = 3 → convert_address row me am =
        some (me, (match am.lookup row.group_id with
                   | some a => a
                   | none => format_phone row.address))) := by
  constructor
  · intro h2
    cases am with
    | nil => simp [convert_address, h2]
    | cons p rest => simp [convert_address, h2]
  · intro h3
    cases am with
    | nil => simp [convert_address, h3]
    | cons p rest => simp [convert_address, h3]

/-- Witness for C3: a concrete incoming row whose group has an alias and
a concrete outgoing row without one. -/
theorem c3_witness :
    convert_address ⟨1, 0, "5555551212".toList, "hi".toList, 2, 7⟩ ("Me".toList)
        [(7, "Alice".toList)] = some ("Alice".toList, "Me".toList)
    ∧ convert_address ⟨2, 0, "5555551212".toList, "yo".toList, 3, 9⟩ ("Me".toList)
        [(7, "Alice".toList)] = some ("Me".toList, "(555) 555-1212".toList) :=
  ⟨(c3_convert_address_directional _ _ _ (by decide)).1 rfl,
   (c3_convert_address_directional _ _ _ (by decide)).2 rfl⟩

/-- C4: every row that survives the skip filter has direction flag 2 or
3, so the branch of `convert_address` that leaves the addresses
unassigned is unreachable in the pipeline. -/
theorem c4_skip_guards_direction (rows : List Row) (row : Row)
    (h : row ∈ rows.filter (fun r => !skip_row r)) :
    (row.flags = 2 ∨ row.flags = 3)
    ∧ ∀ (me : PyStr) (am : AliasDict), (convert_address row me am).isSome = true := by
  have hs : skip_row row = false := by
    have hb := (List.mem_filter.mp h).2
    simpa using hb
  exact ⟨not_skip_flags row hs, fun me am => convert_address_isSome row me am hs⟩

/-- Witness for C4 at a concrete row list. -/
theorem c4_witness :
    ((⟨1, 0, "5555551212".toList, "hi".toList, 2, 7⟩ : Row).flags = 2
      ∨ (⟨1, 0, "5555551212".toList, "hi".toList, 2, 7⟩ : Row).flags = 3)
    ∧ (convert_address ⟨1, 0, "5555551212".toList, "hi".toList, 2, 7⟩
        ("Me".toList) []).isSome = true :=
  ⟨(c4_skip_guards_direction [⟨1, 0, "5555551212".toList, "hi".toList, 2, 7⟩]
      ⟨1, 0, "5555551212".toList, "hi".toList, 2, 7⟩ (by decide)).1,
   (c4_skip_guards_direction [⟨1, 0, "5555551212".toList, "hi".toList, 2, 7⟩]
      ⟨1, 0, "5555551212".toList, "hi".toList, 2, 7⟩ (by decide)).2 ("Me".toList) []⟩

/-- When every requested number resolves to no group, the group id
accumulator of `build_msg_query` stays as it started. -/
theorem build_fold_nil (db : List GMRow) (ns : List PyStr) (acc : List Int)
    (h : ∀ n ∈ ns, query_group_ids db n = none) :
    ns.foldl
      (fun acc n =>
        match query_group_ids db n with
        | some gids => acc ++ gids
        | none => acc) acc = acc := by
  induction ns generalizing acc with
  | nil => rfl
  | cons n rest ih =>
    rw [List.foldl_cons]
    have hn : query_group_ids db n = none := h n (List.mem_cons_self n rest)
    simp only [hn]
    exact ih acc (fun m hm => h m (List.mem_cons_of_mem n hm))

/-- C1: when no numbers are requested, the requested list is empty, or
every requested number resolves to no group, the planned query is the
unrestricted select, and executing it yields the full message set (a
permutation of the whole table, so non-empty whenever the table is). -/
theorem c1_empty_filter_means_all (db : List GMRow) (numbers : Option (List PyStr))
    (msgs : List Row)
    (h : ∀ n ∈ numbers.getD [], query_group_ids db n = none) :
    build_msg_query db numbers = MsgQuery.unfiltered
    ∧ (exec_msg_query msgs (build_msg_query db numbers)).Perm msgs
    ∧ (msgs ≠ [] → exec_msg_query msgs (build_msg_query db numbers) ≠ []) := by
  have hb : build_msg_query db numbers = MsgQuery.unfiltered := by
    cases numbers with
    | none => rfl
    | some ns =>
      simp only [build_msg_query]
      rw [build_fold_nil db ns [] (fun n hn => h n hn)]
      rfl
  refine ⟨hb, ?_, ?_⟩
  · rw [hb]
    exact List.perm_insertionSort row_le msgs
  · intro hne
    rw [hb]
    intro hc
    have hp := List.perm_insertionSort row_le msgs
    have hp2 : exec_msg_query msgs MsgQuery.unfiltered = List.insertionSort row_le msgs := rfl
    rw [← hp2, hc] at hp
    exact hne (List.nil_perm.mp hp)

/-- Witness for C1: one stored group, one requested number that does not
match it, a one-row message table: the query is unrestricted and the
result is not empty. -/
theorem c1_witness :
    build_msg_query [⟨"+15555551212".toList, 7⟩] (some [("9999999999".toList)])
      = MsgQuery.unfiltered
    ∧ exec_msg_query [⟨1, 0, "5555551212".toList, "hi".toList, 2, 7⟩]
        (build_msg_query [⟨"+15555551212".toList, 7⟩] (some [("9999999999".toList)])) ≠ [] :=
  ⟨(c1_empty_filter_means_all [⟨"+15555551212".toList, 7⟩] (some [("9999999999".toList)])
      [⟨1, 0, "5555551212".toList, "hi".toList, 2, 7⟩] (by decide)).1,
   (c1_empty_filter_means_all [⟨"+15555551212".toList, 7⟩] (some [("9999999999".toList)])
      [⟨1, 0, "5555551212".toList, "hi".toList, 2, 7⟩] (by decide)).2.2 (by decide)⟩

/-- The row loop produces exactly one output record per eligible row, in
list order: the `filterMap` is a `map` over the skip-filtered rows. -/
theorem run_pipeline_eq_map (fd : Int → PyStr) (me : PyStr) (am : AliasDict)
    (rows : List Row) :
    run_pipeline fd me am rows =
      (rows.filter (fun r => !skip_row r)).map
        (fun r => { date := fd r.date,
                    from_addr := ((convert_address r me am).getD ([], [])).1,
                    to_addr := ((convert_address r me am).getD ([], [])).2,
                    text := r.text }) := by
  induction rows with
  | nil => rfl
  | cons r rest ih =>
    simp only [run_pipeline] at ih ⊢
    rw [List.filterMap_cons, List.filter_cons]
    by_cases hs : skip_row r = true
    · simp only [classify_row, hs, if_true, Bool.not_true]
      simpa using ih
    · have hsf : skip_row r = false := by revert hs; cases skip_row r <;> simp
      rcases Option.isSome_iff_exists.mp (convert_address_isSome r me am hsf) with ⟨pr, hft⟩
      obtain ⟨f, t⟩ := pr
      simp [classify_row, hsf, hft, ih]

/-- C8: executing the planned query (filtered or unfiltered) yields rows
sorted by rowid ascending; the eligible rows keep that order; and the
classified message list is the order-preserving one-to-one image of the
eligible rows. -/
theorem c8_order_preserved (q : MsgQuery) (msgs : List Row) (fd : Int → PyStr)
    (me : PyStr) (am : AliasDict) :
    List.Sorted row_le (exec_msg_query msgs q)
    ∧ List.Sorted row_le ((exec_msg_query msgs q).filter (fun r => !skip_row r))
    ∧ run_pipeline fd me am (exec_msg_query msgs q) =
        ((exec_msg_query msgs q).filter (fun r => !skip_row r)).map
          (fun r => { date := fd r.date,
                      from_addr := ((convert_address r me am).getD ([], [])).1,
                      to_addr := ((convert_address r me am).getD ([], [])).2,
                      text := r.text }) := by
  have hsorted : List.Sorted row_le (exec_msg_query msgs q) := by
    cases q with
    | filtered gids => exact List.sorted_insertionSort row_le _
    | unfiltered => exact List.sorted_insertionSort row_le _
  exact ⟨hsorted, hsorted.filter _, run_pipeline_eq_map fd me am _⟩

/-- Lookup after the per-alias insertion fold: a group id in the
resolved list gets the name just registered, any other key is
unchanged. -/
theorem lookup_foldl_insert (gids : List Int) (name : PyStr) (d : AliasDict) (g : Int) :
    (gids.foldl (fun res gid => dict_insert res gid name) d).lookup g =
      if g ∈ gids then some name else d.lookup g := by
  induction gids generalizing d with
  | nil => simp
  | cons x xs ih =>
    rw [List.foldl_cons, ih]
    by_cases hg : g ∈ xs
    · simp [hg]
    · by_cases hx : g = x
      · subst hx
        simp [hg, dict_insert, List.lookup]
      · have hbe : (g == x) = false := beq_eq_false_iff_ne.mpr hx
        simp [hg, hx, dict_insert, List.lookup, hbe]

/-- Keys after the per-alias insertion fold: the resolved group ids
(reversed) in front of the previous keys. -/
theorem dict_keys_foldl_insert (gids : List Int) (name : PyStr) (d : AliasDict) :
    dict_keys (gids.foldl (fun res gid => dict_insert res gid name) d) =
      gids.reverse ++ dict_keys d := by
  induction gids generalizing d with
  | nil => simp
  | cons x xs ih =>
    rw [List.foldl_cons, ih]
    simp [dict_insert, dict_keys]

/-- A raised exception inside the alias loop propagates. -/
theorem alias_fold_none (db : List GMRow) (aliases : List PyStr) :
    aliases.foldl (alias_step db) none = none := by
  induction aliases with
  | nil => rfl
  | cons a rest ih =>
    rw [List.foldl_cons]
    exact ih

/-- When every alias parses, the alias fold never raises. -/
theorem alias_fold_isSome (db : List GMRow) :
    ∀ (aliases : List PyStr) (d : AliasDict),
      (∀ a ∈ aliases, (parse_alias a).isSome = true) →
      ((aliases.foldl (alias_step db) (some d)).isSome = true) := by
  intro aliases
  induction aliases with
  | nil =>
    intro d h
    rfl
  | cons a rest ih =>
    intro d h
    rw [List.foldl_cons]
    rcases Option.isSome_iff_exists.mp (h a (List.mem_cons_self a rest)) with ⟨pr, hpa⟩
    obtain ⟨num, name⟩ := pr
    have hrest : ∀ x ∈ rest, (parse_alias x).isSome = true :=
      fun x hx => h x (List.mem_cons_of_mem a hx)
    cases hq : query_group_ids db num with
    | some gids =>
      rw [show alias_step db (some d) a
          = some (gids.foldl (fun res gid => dict_insert res gid name) d) by
        simp [alias_step, hpa, hq]]
      exact ih _ hrest
    | none =>
      rw [show alias_step db (some d) a = some d by simp [alias_step, hpa, hq]]
      exact ih d hrest

/-- Every key present after the alias fold is either a key of the
starting dict or originates from the successful resolution of the
number of some alias in the list. -/
theorem alias_fold_keys (db : List GMRow) :
    ∀ (aliases : List PyStr) (d d' : AliasDict),
      aliases.foldl (alias_step db) (some d) = some d' →
      ∀ k ∈ dict_keys d', k ∈ dict_keys d ∨ ∃ a ∈ aliases, ∃ num name gids,
        parse_alias a = some (num, name) ∧ query_group_ids db num = some gids ∧
          k ∈ gids := by
  intro aliases
  induction aliases with
  | nil =>
    intro d d' hf k hk
    rw [List.foldl_nil] at hf
    cases hf
    exact Or.inl hk
  | cons a rest ih =>
    intro d d' hf k hk
    rw [List.foldl_cons] at hf
    cases hpa : parse_alias a with
    | none =>
      rw [show alias_step db (some d) a = none by simp [alias_step, hpa],
        alias_fold_none] at hf
      exact absurd hf (by simp)
    | some pr =>
      obtain ⟨num, name⟩ := pr
      cases hq : query_group_ids db num with
      | some gids =>
        rw [show alias_step db (some d) a
            = some (gids.foldl (fun res gid => dict_insert res gid name) d) by
          simp [alias_step, hpa, hq]] at hf
        rcases ih _ _ hf k hk with hk2 | ⟨a2, ha2, hrest⟩
        · rw [dict_keys_foldl_insert] at hk2
          rcases List.mem_append.mp hk2 with hkg | hkd
          · exact Or.inr ⟨a, List.mem_cons_self a rest, num, name, gids, hpa, hq,
              List.mem_reverse.mp hkg⟩
          · exact Or.inl hkd
        · exact Or.inr ⟨a2, List.mem_cons_of_mem a ha2, hrest⟩
      | none =>
        rw [show alias_step db (some d) a = some d by simp [alias_step, hpa, hq]] at hf
        rcases ih _ _ hf k hk with hk2 | ⟨a2, ha2, hrest⟩
        · exact Or.inl hk2
        · exact Or.inr ⟨a2, List.mem_cons_of_mem a ha2, hrest⟩

/-- C7: on syntactically valid alias pairs, `alias_map` never fails, and
every key of the resulting dict originates from a successful group
resolution of the number of some pair (a pair whose number resolves to
no group contributes no key). -/
theorem c7_alias_keys_resolved (db : List GMRow) (aliases : List PyStr)
    (h : ∀ a ∈ aliases, (parse_alias a).isSome = true) :
    (alias_map db aliases).isSome = true
    ∧ ∀ gid ∈ dict_keys ((alias_map db aliases).getD []),
        ∃ a ∈ aliases, ∃ num name gids, parse_alias a = some (num, name)
          ∧ query_group_ids db num = some gids ∧ gid ∈ gids := by
  have h1 : (alias_map db aliases).isSome = true := alias_fold_isSome db aliases [] h
  refine ⟨h1, ?_⟩
  intro gid hgid
  rcases Option.isSome_iff_exists.mp h1 with ⟨d', hd⟩
  have hk := alias_fold_keys db aliases [] d' hd gid (by rwa [hd, Option.getD_some] at hgid)
  rcases hk with hk0 | hex
  · simp [dict_keys] at hk0
  · exact hex

/-- Witness for C7: one alias that resolves and one whose number matches
no stored address; the map is still built. -/
theorem c7_witness :
    (alias_map [⟨"+15555551212".toList, 7⟩]
      [("5555551212=Alice".toList), ("9999999999=Bob".toList)]).isSome = true :=
  (c7_alias_keys_resolved [⟨"+15555551212".toList, 7⟩]
    [("5555551212=Alice".toList), ("9999999999=Bob".toList)] (by decide)).1

/-- C10: appending one more valid alias pair to the list overwrites the
entry of every group id its number resolves to (the later pair wins),
and leaves every other group id bound as before. -/
theorem c10_alias_last_wins (db : List GMRow) (xs : List PyStr) (a : PyStr)
    (num name : PyStr) (gids : List Int) (g : Int)
    (hv : ∀ x ∈ xs, (parse_alias x).isSome = true)
    (hpa : parse_alias a = some (num, name))
    (hq : query_group_ids db num = some gids) :
    (g ∈ gids → ((alias_map db (xs ++ [a])).getD []).lookup g = some name)
    ∧ (g ∉ gids → ((alias_map db (xs ++ [a])).getD []).lookup g =
        ((alias_map db xs).getD []).lookup g) := by
  rcases Option.isSome_iff_exists.mp (alias_fold_isSome db xs [] hv) with ⟨d, hd⟩
  have hd2 : alias_map db xs = some d := hd
  have hmap : alias_map db (xs ++ [a])
      = some (gids.foldl (fun res gid => dict_insert res gid name) d) := by
    unfold alias_map
    rw [List.foldl_append, hd, List.foldl_cons, List.foldl_nil]
    simp [alias_step, hpa, hq]
  constructor
  · intro hg
    rw [hmap, Option.getD_some, lookup_foldl_insert]
    simp [hg]
  · intro hg
    rw [hmap, Option.getD_some, lookup_foldl_insert, hd2, Option.getD_some]
    simp [hg]

/-- Witness for C10: two alias pairs whose numbers both resolve to group
7; the lookup returns the name of the later pair. -/
theorem c10_witness :
    ((alias_map [⟨"+15555551212".toList, 7⟩]
        (["5555551212=Alice".toList] ++ [("15555551212=Carol".toList)])).getD
      []).lookup 7 = some ("Carol".toList) :=
  (c10_alias_last_wins [⟨"+15555551212".toList, 7⟩] ["5555551212=Alice".toList]
    ("15555551212=Carol".toList) ("15555551212".toList) ("Carol".toList) [7] 7
    (by decide) (by decide) (by decide)).1 (by decide)

/-- C9: the human renderer raises on the empty message list (Python
`max` of an empty sequence) and succeeds on every non-empty one. -/
theorem c9_msgs_human_empty_raises :
    (∀ header : Bool, msgs_human [] header = none)
    ∧ ∀ (messages : List Msg) (header : Bool), messages ≠ [] →
        (msgs_human messages header).isSome = true := by
  constructor
  · intro header
    rfl
  · intro messages header hne
    cases messages with
    | nil => exact absurd rfl hne
    | cons m rest => simp [msgs_human, pymax]
